import Mathlib

/-!
Verification of the go-app UI engine's event-and-update scheduler
(`pkg/app/engine.go`).

The engine state (`Engine`) mirrors the mutable fields of the Go `engine`
struct that the modelled operations touch.  The external tree/render
collaborators (`parent`, `Mounted`, the Composer capability, `updateRoot`,
`replaceChildAt`, `update`) are gathered in a `World` record of pure
functions; UI nodes are identified by natural numbers, as are the opaque
function values carried by events and message handlers.

Loops that walk the parent chain of a node (`scheduleComponentUpdate`,
`Emit`) are written with an explicit fuel argument and return `none` when
the fuel runs out; on any tree whose parent chains terminate, a large
enough fuel makes the model agree with the Go loop.  Go panics are
modelled as `Except` errors carrying an `EnginePanic` value.
-/

set_option linter.unusedVariables false

namespace GoAppEngine

/-- Identifier of a UI node (Go `UI` interface values, compared by identity). -/
abbrev NodeId := Nat

/-- Opaque payload of a queued function (Go `func(Context)` closures).
`plain id` is a user function passed to `Dispatch`/`Defer`; `msg handler value`
is the closure `function(ctx, v)` that `Post` builds around a message
handler and the published value. -/
inductive Fn where
  | plain (id : Nat)
  | msg (handler : Nat) (value : Nat)
deriving DecidableEq

/-- Go: `type event struct { source UI; deferable bool; function func(Context) }`.
A `none` function models a nil function value (as dispatched by `Emit`). -/
structure Event where
  source : NodeId
  deferable : Bool
  function : Option Fn
deriving DecidableEq

/-- Go: `type updateDescriptor struct { compo Composer; priority int }`. -/
structure UpdateDescriptor where
  compo : NodeId
  priority : Nat
deriving DecidableEq

/-- Go: `type msgHandler struct { src UI; function MsgHandler }`; the handler
function is identified by an opaque number. -/
structure msgHandler where
  src : NodeId
  function : Nat
deriving DecidableEq

/-- Registration key of a message handler.  Go builds the string
`fmt.Sprintf("%p-%p", src, h)` from the subscriber and handler pointers,
that is, the composite identity of the (subscriber, handler) pair. -/
abbrev MsgKey := Nat × Nat

/-- The external collaborators the scheduler consumes (spec section 6):
the parent relation, the mounted predicate, the Composer capability, and
the re-render operation.

`render c` models `c.updateRoot()`.  `updateRoot` itself is component code
outside `engine.go`; modelled from the spec: a re-render either fails with
an error (`.error err`, fatal) or succeeds and may perform nested
scheduling calls, so `.ok ns` carries the nodes on which the re-render
triggers `scheduleComponentUpdate`, in order.

`replaceChildResult` models the result of `e.Body.replaceChildAt(0, n)`,
`updateResult` the result of `update(e.Body.children()[0], n)`, and
`isErrReplace` the `isErrReplace(err)` test, all used by `Mount`. -/
structure World where
  parent : NodeId → Option NodeId
  mounted : NodeId → Bool
  isComposer : NodeId → Bool
  render : NodeId → Except Nat (List NodeId)
  replaceChildResult : Option Nat
  updateResult : Option Nat
  isErrReplace : Nat → Bool

/-- The mutable engine state (the fields of the Go `engine` struct touched
by the modelled operations): `events` is the buffered event channel in FIFO
order (head is received first), `updates` the pending set
`map[Composer]struct{}` as a duplicate-free list, `updateQueue` the batch
slice, `defers` the deferred-event slice, `messages` the topic registry
`map[string]map[string]msgHandler` as nested association lists, `bodyId`
the node id of `e.Body`, and `isMountedOnce` the mount flag. -/
structure Engine where
  events : List Event
  updates : List NodeId
  updateQueue : List UpdateDescriptor
  defers : List Event
  messages : List (String × List (MsgKey × msgHandler))
  bodyId : NodeId
  isMountedOnce : Bool
deriving DecidableEq

/-- Go: `eventBufferSize = 4096`, the capacity of the events channel. -/
def eventBufferSize : Nat := 4096

/-- Go: `func (e *engine) Dispatch(src UI, fn func(Context))`.  A `none`
source models a nil `src`, which is replaced by `e.Body`; the event is
enqueued only when the source is mounted. -/
def Dispatch (w : World) (src : Option NodeId) (fn : Option Fn) (e : Engine) : Engine :=
  let s := src.getD e.bodyId
  if w.mounted s then
    { e with events := e.events ++ [⟨s, false, fn⟩] }
  else e

/-- Go: `func (e *engine) Defer(src UI, fn func(Context))`. -/
def Defer (w : World) (src : Option NodeId) (fn : Option Fn) (e : Engine) : Engine :=
  let s := src.getD e.bodyId
  if w.mounted s then
    { e with events := e.events ++ [⟨s, true, fn⟩] }
  else e

/-- Association-list read of `e.messages[msg]` (`none` when the topic is
absent from the registry). -/
def lookupTopic (t : String) :
    List (String × List (MsgKey × msgHandler)) → Option (List (MsgKey × msgHandler))
  | [] => none
  | (t', hs) :: rest => if t' = t then some hs else lookupTopic t rest

/-- Association-list write of `e.messages[msg] = hs`. -/
def setTopic (t : String) (hs : List (MsgKey × msgHandler)) :
    List (String × List (MsgKey × msgHandler)) → List (String × List (MsgKey × msgHandler))
  | [] => [(t, hs)]
  | (t', hs') :: rest => if t' = t then (t, hs) :: rest else (t', hs') :: setTopic t hs rest

/-- Go map assignment `handlers[key] = v`: replace the entry stored at
`key`, or append a fresh one when the key is absent. -/
def mapPut (k : MsgKey) (v : msgHandler) :
    List (MsgKey × msgHandler) → List (MsgKey × msgHandler)
  | [] => [(k, v)]
  | (k', v') :: rest => if k' = k then (k, v) :: rest else (k', v') :: mapPut k v rest

/-- Go: `func (e *engine) Handle(msg string, src UI, h MsgHandler)` —
register a handler under the composite key of (subscriber, handler),
creating the topic's inner map when needed. -/
def Handle (t : String) (src : NodeId) (h : Nat) (e : Engine) : Engine :=
  let handlers := (lookupTopic t e.messages).getD []
  { e with messages := setTopic t (mapPut (src, h) ⟨src, h⟩ handlers) e.messages }

/-- Go: the body of `Post`'s range loop over `handlers`: an entry whose
subscriber is unmounted is deleted; `e.Dispatch` is then called for the
entry either way (there is no early continue in the source), and
`Dispatch` itself drops unmounted sources.  Returns the surviving entries
and the engine with the dispatched events enqueued. -/
def postLoop (w : World) (v : Nat) :
    List (MsgKey × msgHandler) → Engine → List (MsgKey × msgHandler) × Engine
  | [], e => ([], e)
  | (k, h) :: rest, e =>
    let e' := Dispatch w (some h.src) (some (.msg h.function v)) e
    let (rest', e'') := postLoop w v rest e'
    if w.mounted h.src then ((k, h) :: rest', e'') else (rest', e'')

/-- Go: `func (e *engine) Post(msg string, v interface{})` — a no-op when
the topic has no registered handlers. -/
def Post (w : World) (t : String) (v : Nat) (e : Engine) : Engine :=
  match lookupTopic t e.messages with
  | none => e
  | some handlers =>
    let r := postLoop w v handlers e
    { r.2 with messages := setTopic t r.1 r.2.messages }

/-- Outcome of the parent-chain walk inside `scheduleComponentUpdate`. -/
inductive WalkResult where
  | fuelOut
  | already
  | noCompo
  | found (compo : NodeId) (depth : Nat)
deriving DecidableEq

/-- Go: the `for` loop of `scheduleComponentUpdate`, walking the parent
chain from `n` with the pending set `upd`: the first composer met is the
candidate (an early return fires when it is already pending), and `depth`
then counts the remaining hops up to the root. -/
def scheduleWalk (w : World) (upd : List NodeId) :
    Nat → NodeId → Option NodeId → Nat → WalkResult
  | 0, _, _, _ => .fuelOut
  | fuel + 1, n, none, depth =>
    if w.isComposer n then
      if n ∈ upd then .already
      else
        match w.parent n with
        | none => .found n depth
        | some p => scheduleWalk w upd fuel p (some n) (depth + 1)
    else
      match w.parent n with
      | none => .noCompo
      | some p => scheduleWalk w upd fuel p none depth
  | fuel + 1, n, some c, depth =>
    match w.parent n with
    | none => .found c depth
    | some p => scheduleWalk w upd fuel p (some c) (depth + 1)

/-- Go map-as-set insertion `e.updates[c] = struct{}{}`. -/
def setInsert (c : NodeId) (l : List NodeId) : List NodeId :=
  if c ∈ l then l else c :: l

/-- Go: `func (e *engine) scheduleComponentUpdate(n UI)` — no-op on an
unmounted node; otherwise walk up from `n`, and unless the nearest
enclosing composer is missing or already pending, insert it into the
pending set and append a `(composer, depth+1)` descriptor to the batch. -/
def scheduleComponentUpdate (w : World) (fuel : Nat) (n : NodeId) (e : Engine) : Option Engine :=
  if w.mounted n then
    match scheduleWalk w e.updates fuel n none 0 with
    | .fuelOut => none
    | .already => some e
    | .noCompo => some e
    | .found c depth =>
      some { e with
              updates := setInsert c e.updates,
              updateQueue := e.updateQueue ++ [⟨c, depth + 1⟩] }
  else some e

/-- Sequentially apply `scheduleComponentUpdate` to each node of a list
(the nested scheduling calls a re-render performs, in order). -/
def scheduleList (w : World) (fuel : Nat) : List NodeId → Engine → Option Engine
  | [], e => some e
  | n :: rest, e =>
    match scheduleComponentUpdate w fuel n e with
    | none => none
    | some e' => scheduleList w fuel rest e'

/-- Go: `componentUpdated` — `delete(e.updates, c)`. -/
def componentUpdated (c : NodeId) (e : Engine) : Engine :=
  { e with updates := e.updates.filter (fun x => x ≠ c) }

/-- A Go runtime panic value raised by the engine.  `tagged` is the error
built in `Mount`: `errors.New(msg)` tagged with `events-count`,
`events-capacity`, `updates-count` and `updates-queue-len` and wrapping the
cause; `raw` is a bare propagation of the cause, as in `updateComponents`. -/
inductive EnginePanic where
  | tagged (msg : String)
      (eventsCount eventsCapacity updatesCount updatesQueueLen : Nat) (wrapped : Nat)
  | raw (err : Nat)
deriving DecidableEq

/-- Whether a panic value carries the diagnostic context (queue depth and
capacity, pending-update count, batch length). -/
def EnginePanic.hasDiagnostics : EnginePanic → Bool
  | .tagged _ _ _ _ _ _ => true
  | .raw _ => false

/-- Insert a descriptor into a priority-ascending list, keeping it sorted. -/
def insertDesc (d : UpdateDescriptor) : List UpdateDescriptor → List UpdateDescriptor
  | [] => [d]
  | x :: xs => if d.priority < x.priority then d :: x :: xs else x :: insertDesc d xs

/-- Go: `sortUpdateDescriptors` — sort the batch ascending by priority. -/
def sortUpdateDescriptors : List UpdateDescriptor → List UpdateDescriptor
  | [] => []
  | x :: xs => insertDesc x (sortUpdateDescriptors xs)

/-- Go: the body of `updateComponents`' range loop over the sorted batch
snapshot: skip a composer that is unmounted or no longer pending;
otherwise run its `updateRoot` (performing the nested scheduling calls it
triggers, or raising a bare panic of its error) and delete it from the
pending set.  Returns the engine and the composers re-rendered, in order. -/
def updatePass (w : World) (fuel : Nat) :
    List UpdateDescriptor → Engine → Option (Except EnginePanic (Engine × List NodeId))
  | [], e => some (.ok (e, []))
  | ud :: rest, e =>
    if w.mounted ud.compo then
      if ud.compo ∈ e.updates then
        match w.render ud.compo with
        | .error err => some (.error (.raw err))
        | .ok scheds =>
          match scheduleList w fuel scheds e with
          | none => none
          | some e' =>
            match updatePass w fuel rest (componentUpdated ud.compo e') with
            | none => none
            | some (.error p) => some (.error p)
            | some (.ok (e'', tr)) => some (.ok (e'', ud.compo :: tr))
      else updatePass w fuel rest e
    else updatePass w fuel rest e

/-- Go: `func (e *engine) updateComponents()` — return immediately when the
pending set is empty; otherwise sort the batch, process its snapshot, and
truncate the whole batch slice afterwards.  `none` means the model ran out
of fuel inside a parent-chain walk; `.error` is a Go panic. -/
def updateComponents (w : World) (fuel : Nat) (e : Engine) :
    Option (Except EnginePanic (Engine × List NodeId)) :=
  if e.updates = [] then some (.ok (e, []))
  else
    match updatePass w fuel (sortUpdateDescriptors e.updateQueue)
        { e with updateQueue := sortUpdateDescriptors e.updateQueue } with
    | none => none
    | some (.error p) => some (.error p)
    | some (.ok (e', tr)) => some (.ok ({ e' with updateQueue := [] }, tr))

/-- One observable step of execution: an event function invocation, a
composer re-render, or the synchronous run of an `Emit` callback. -/
inductive TraceEntry where
  | exec (source : NodeId) (function : Option Fn)
  | render (compo : NodeId)
  | emitRun (id : Nat)
deriving DecidableEq

/-- Go: `execEvent` — invoke the event's function only when the source is
still mounted and the function is non-nil; returns the invocations
performed. -/
def execEvent (w : World) (ev : Event) : List TraceEntry :=
  if w.mounted ev.source && ev.function.isSome then [.exec ev.source ev.function] else []

/-- Go: the range loop of `execDeferableEvents` — invoke each buffered
event's function when its source is still mounted (note that the source
has no nil-function guard here). -/
def execDefersLoop (w : World) : List Event → List TraceEntry
  | [] => []
  | ev :: rest =>
    (if w.mounted ev.source then [TraceEntry.exec ev.source ev.function] else [])
      ++ execDefersLoop w rest

/-- Go: `func (e *engine) execDeferableEvents()` — drain the deferred
buffer in FIFO order, then truncate it. -/
def execDeferableEvents (w : World) (e : Engine) : Engine × List TraceEntry :=
  ({ e with defers := [] }, execDefersLoop w e.defers)

/-- Go: the receive branch of `Consume`'s select loop applied to the queued
events in FIFO order: park deferable events in the buffer, execute the
rest immediately and schedule their source for update. -/
def consumeLoop (w : World) (fuel : Nat) :
    List Event → Engine → Option (Engine × List TraceEntry)
  | [], e => some (e, [])
  | ev :: rest, e =>
    if ev.deferable then
      consumeLoop w fuel rest { e with defers := e.defers ++ [ev] }
    else
      match scheduleComponentUpdate w fuel ev.source e with
      | none => none
      | some e' =>
        match consumeLoop w fuel rest e' with
        | none => none
        | some (e'', tr) => some (e'', execEvent w ev ++ tr)

/-- Go: `func (e *engine) Consume()` — drain the queue, flush the pending
updates, then run the deferred events.  Returns the final engine and the
full trace of invocations and re-renders, in execution order. -/
def Consume (w : World) (fuel : Nat) (e : Engine) :
    Option (Except EnginePanic (Engine × List TraceEntry)) :=
  match consumeLoop w fuel e.events { e with events := [] } with
  | none => none
  | some (e1, tr1) =>
    match updateComponents w fuel e1 with
    | none => none
    | some (.error p) => some (.error p)
    | some (.ok (e2, renders)) =>
      let r := execDeferableEvents w e2
      some (.ok (r.1, tr1 ++ renders.map TraceEntry.render ++ r.2))

/-- Go: `Emit`'s ancestor walk `for n := src; n != nil; n = n.parent()`:
count the composer boundaries met and dispatch an update event (with a nil
function) for every composer after the first. -/
def emitLoop (w : World) : Nat → Option NodeId → Nat → Engine → Option Engine
  | _, none, _, e => some e
  | 0, some _, _, _ => none
  | fuel + 1, some n, count, e =>
    if w.isComposer n then
      let e' := if count + 1 > 1 then Dispatch w (some n) none e else e
      emitLoop w fuel (w.parent n) (count + 1) e'
    else emitLoop w fuel (w.parent n) count e

/-- Go: `func (e *engine) Emit(src UI, fn func())` — a no-op on an
unmounted source; otherwise `fn` runs synchronously (recorded in the
returned trace when non-nil) and the ancestor walk dispatches the
enclosing composers above the first one. -/
def Emit (w : World) (fuel : Nat) (src : NodeId) (fn : Option Nat) (e : Engine) :
    Option (Engine × List TraceEntry) :=
  if w.mounted src then
    let tr : List TraceEntry := match fn with | some f => [.emitRun f] | none => []
    (emitLoop w fuel (some src) 0 e).map (fun e' => (e', tr))
  else some (e, [])

/-- The composer boundaries on the parent chain starting at a node
(inclusive), innermost first. -/
def chainCompos (w : World) : Nat → Option NodeId → Option (List NodeId)
  | _, none => some []
  | 0, some _ => none
  | fuel + 1, some n =>
    (chainCompos w fuel (w.parent n)).map (fun cs => if w.isComposer n then n :: cs else cs)

/-- The number of parent-chain hops from a node to the root. -/
def hopsToRoot (w : World) : Nat → NodeId → Option Nat
  | 0, _ => none
  | fuel + 1, n =>
    match w.parent n with
    | none => some 0
    | some p => (hopsToRoot w fuel p).map (· + 1)

/-- The diagnostic-tagged panic value built at each failure site of
`Mount`: the message, `len(e.events)`, `cap(e.events)`, `len(e.updates)`
and `len(e.updateQueue)`, wrapping the cause. -/
def mountTaggedPanic (e : Engine) (err : Nat) : EnginePanic :=
  .tagged "mounting ui element failed" e.events.length eventBufferSize
    e.updates.length e.updateQueue.length err

/-- Go: the body of the closure that `func (e *engine) Mount(n UI)`
dispatches onto the queue: the first mount goes through `replaceChildAt`;
later mounts try `update` and fall back to `replaceChildAt` when the error
is an `errReplace`; every non-recoverable error is raised as a panic
tagged with the engine diagnostics. -/
def mountAction (w : World) (e : Engine) : Except EnginePanic Engine :=
  if !e.isMountedOnce then
    match w.replaceChildResult with
    | some err => .error (mountTaggedPanic e err)
    | none => .ok { e with isMountedOnce := true }
  else
    match w.updateResult with
    | none => .ok e
    | some err =>
      if !w.isErrReplace err then .error (mountTaggedPanic e err)
      else
        match w.replaceChildResult with
        | some err2 => .error (mountTaggedPanic e err2)
        | none => .ok e

/-! ### Helper lemmas: dispatch and the message bus -/

lemma Dispatch_some_mounted (w : World) (s : NodeId) (fn : Option Fn) (e : Engine)
    (h : w.mounted s = true) :
    Dispatch w (some s) fn e = { e with events := e.events ++ [⟨s, false, fn⟩] } := by
  simp [Dispatch, h]

lemma Dispatch_some_unmounted (w : World) (s : NodeId) (fn : Option Fn) (e : Engine)
    (h : w.mounted s = false) :
    Dispatch w (some s) fn e = e := by
  simp [Dispatch, h]

lemma postLoop_eq (w : World) (v : Nat) (hs : List (MsgKey × msgHandler)) (e : Engine) :
    postLoop w v hs e =
      (hs.filter (fun kh => w.mounted kh.2.src),
       { e with events := e.events ++ ((hs.filter (fun kh => w.mounted kh.2.src)).map
           (fun kh => ⟨kh.2.src, false, some (.msg kh.2.function v)⟩)) }) := by
  induction hs generalizing e with
  | nil => simp [postLoop]
  | cons kh rest ih =>
    obtain ⟨k, h⟩ := kh
    by_cases hm : w.mounted h.src = true
    · simp [postLoop, Dispatch_some_mounted w h.src _ e hm, ih, hm, List.filter_cons]
    · have hm' : w.mounted h.src = false := by simpa using hm
      simp [postLoop, Dispatch_some_unmounted w h.src _ e hm', ih, hm', List.filter_cons]

lemma Post_eq_of_lookup (w : World) (t : String) (v : Nat) (e : Engine)
    (hs : List (MsgKey × msgHandler)) (h : lookupTopic t e.messages = some hs) :
    Post w t v e =
      { e with
        messages := setTopic t (hs.filter (fun kh => w.mounted kh.2.src)) e.messages,
        events := e.events ++ (hs.filter (fun kh => w.mounted kh.2.src)).map
          (fun kh => ⟨kh.2.src, false, some (.msg kh.2.function v)⟩) } := by
  simp [Post, h, postLoop_eq]

lemma Post_eq_of_lookup_none (w : World) (t : String) (v : Nat) (e : Engine)
    (h : lookupTopic t e.messages = none) :
    Post w t v e = e := by
  simp [Post, h]

lemma lookupTopic_setTopic (t : String) (hs : List (MsgKey × msgHandler))
    (m : List (String × List (MsgKey × msgHandler))) :
    lookupTopic t (setTopic t hs m) = some hs := by
  induction m with
  | nil => simp [setTopic, lookupTopic]
  | cons th rest ih =>
    obtain ⟨t', hs'⟩ := th
    by_cases ht : t' = t
    · simp [setTopic, ht, lookupTopic]
    · simp [setTopic, ht, lookupTopic, ih]

lemma setTopic_setTopic (t : String) (hs hs' : List (MsgKey × msgHandler))
    (m : List (String × List (MsgKey × msgHandler))) :
    setTopic t hs (setTopic t hs' m) = setTopic t hs m := by
  induction m with
  | nil => simp [setTopic]
  | cons th rest ih =>
    obtain ⟨t'', hs''⟩ := th
    by_cases ht : t'' = t
    · simp [setTopic, ht]
    · simp [setTopic, ht, ih]

lemma mapPut_mapPut (k : MsgKey) (v : msgHandler) (l : List (MsgKey × msgHandler)) :
    mapPut k v (mapPut k v l) = mapPut k v l := by
  induction l with
  | nil => simp [mapPut]
  | cons kv rest ih =>
    obtain ⟨k', v'⟩ := kv
    by_cases hk : k' = k
    · simp [mapPut, hk]
    · simp [mapPut, hk, ih]

/-- The number of registry entries stored under a given key. -/
def countKey (k : MsgKey) (hs : List (MsgKey × msgHandler)) : Nat :=
  (hs.filter (fun kh => kh.1 = k)).length

lemma countKey_cons_eq (k : MsgKey) (v : msgHandler) (l : List (MsgKey × msgHandler)) :
    countKey k ((k, v) :: l) = countKey k l + 1 := by
  simp [countKey, List.filter_cons]

lemma countKey_cons_ne (k k' : MsgKey) (v : msgHandler) (l : List (MsgKey × msgHandler))
    (h : k' ≠ k) : countKey k ((k', v) :: l) = countKey k l := by
  simp [countKey, List.filter_cons, h]

lemma countKey_mapPut (k : MsgKey) (v : msgHandler) (l : List (MsgKey × msgHandler))
    (h : countKey k l ≤ 1) : countKey k (mapPut k v l) = 1 := by
  induction l with
  | nil => simp [mapPut, countKey]
  | cons kv rest ih =>
    obtain ⟨k', v'⟩ := kv
    by_cases hk : k' = k
    · rw [hk] at h
      rw [countKey_cons_eq] at h
      rw [mapPut, if_pos hk, countKey_cons_eq]
      omega
    · rw [countKey_cons_ne k k' v' rest hk] at h
      rw [mapPut, if_neg hk, countKey_cons_ne k k' v' _ hk]
      exact ih h

/-! ### Claim C10 -/

/-- Claim C10: calling `Dispatch` or `Defer` with a nil source substitutes
the engine's `Body` as the event source: when the `Body` is mounted the
call enqueues an event targeting the `Body` (non-deferable for `Dispatch`,
deferable for `Defer`) instead of failing or being a no-op. -/
theorem dispatch_nil_source_uses_body (w : World) (fn : Option Fn) (e : Engine)
    (h : w.mounted e.bodyId = true) :
    Dispatch w none fn e = { e with events := e.events ++ [⟨e.bodyId, false, fn⟩] } ∧
    Defer w none fn e = { e with events := e.events ++ [⟨e.bodyId, true, fn⟩] } := by
  constructor
  · simp [Dispatch, h]
  · simp [Defer, h]

/-- World used by several witnesses: a three-node chain of composers,
node 2 below node 1 below the root node 0, everything mounted, every
re-render succeeding without nested scheduling. -/
def wChain : World where
  parent := fun n => match n with | 1 => some 0 | 2 => some 1 | _ => none
  mounted := fun _ => true
  isComposer := fun _ => true
  render := fun _ => .ok []
  replaceChildResult := none
  updateResult := none
  isErrReplace := fun _ => false

/-- The freshly initialised engine state. -/
def engine0 : Engine := ⟨[], [], [], [], [], 0, false⟩

theorem dispatch_nil_source_uses_body_witness :
    Dispatch wChain none none engine0 =
      { engine0 with events := [⟨engine0.bodyId, false, none⟩] } ∧
    Defer wChain none none engine0 =
      { engine0 with events := [⟨engine0.bodyId, true, none⟩] } :=
  dispatch_nil_source_uses_body wChain none engine0 rfl

/-! ### Claim C5 -/

/-- Claim C5: for every node whose mounted predicate is false, dispatching
to it, deferring to it, or publishing toward it never invokes its function
or handler: `Dispatch` and `Defer` are no-ops at call time for an
unmounted source; `execEvent` silently skips (performs no invocation for)
an event whose source is unmounted at execution time; and `Post` never
enqueues a new event for an unmounted subscriber and removes its registry
entries under the published topic. -/
theorem unmounted_never_invoked :
    (∀ (w : World) (s : NodeId) (fn : Option Fn) (e : Engine),
      w.mounted s = false → Dispatch w (some s) fn e = e) ∧
    (∀ (w : World) (s : NodeId) (fn : Option Fn) (e : Engine),
      w.mounted s = false → Defer w (some s) fn e = e) ∧
    (∀ (w : World) (ev : Event),
      w.mounted ev.source = false → execEvent w ev = []) ∧
    (∀ (w : World) (t : String) (v : Nat) (e : Engine) (ev : Event),
      ev ∈ (Post w t v e).events → ev ∈ e.events ∨ w.mounted ev.source = true) ∧
    (∀ (w : World) (t : String) (v : Nat) (e : Engine) (kh : MsgKey × msgHandler),
      kh ∈ (lookupTopic t (Post w t v e).messages).getD [] → w.mounted kh.2.src = true) := by
  refine ⟨?_, ?_, ?_, ?_, ?_⟩
  · intro w s fn e h; simp [Dispatch, h]
  · intro w s fn e h; simp [Defer, h]
  · intro w ev h; simp [execEvent, h]
  · intro w t v e ev hmem
    cases hl : lookupTopic t e.messages with
    | none => rw [Post_eq_of_lookup_none w t v e hl] at hmem; exact Or.inl hmem
    | some hs =>
      rw [Post_eq_of_lookup w t v e hs hl] at hmem
      simp only [List.mem_append] at hmem
      rcases hmem with hmem | hmem
      · exact Or.inl hmem
      · right
        simp only [List.mem_map, List.mem_filter] at hmem
        obtain ⟨kh, ⟨_, hm⟩, hev⟩ := hmem
        rw [← hev]
        exact hm
  · intro w t v e kh hmem
    cases hl : lookupTopic t e.messages with
    | none =>
      rw [Post_eq_of_lookup_none w t v e hl] at hmem
      rw [hl] at hmem
      simp at hmem
    | some hs =>
      rw [Post_eq_of_lookup w t v e hs hl] at hmem
      simp only [lookupTopic_setTopic, Option.getD_some] at hmem
      exact (List.mem_filter.mp hmem).2

/-- World for the unmounted witnesses: nothing is mounted. -/
def wDead : World where
  parent := fun _ => none
  mounted := fun _ => false
  isComposer := fun _ => true
  render := fun _ => .ok []
  replaceChildResult := none
  updateResult := none
  isErrReplace := fun _ => false

theorem unmounted_never_invoked_witness :
    Dispatch wDead (some 5) (some (.plain 1)) engine0 = engine0 ∧
    Defer wDead (some 5) (some (.plain 1)) engine0 = engine0 ∧
    execEvent wDead ⟨5, false, some (.plain 1)⟩ = [] :=
  ⟨unmounted_never_invoked.1 wDead 5 (some (.plain 1)) engine0 rfl,
   unmounted_never_invoked.2.1 wDead 5 (some (.plain 1)) engine0 rfl,
   unmounted_never_invoked.2.2.1 wDead ⟨5, false, some (.plain 1)⟩ rfl⟩

/-! ### Claim C6 -/

/-- Claim C6: `Post(topic, value)` is a no-op when the topic has no
registered handlers; otherwise, over the registered entries under the
topic, the unmounted subscribers' entries are removed (and produce no
event) while each mounted subscriber gets a non-deferable event scheduled
through the dispatch path carrying its handler and the published value —
no handler is invoked inline. -/
theorem post_contract :
    (∀ (w : World) (t : String) (v : Nat) (e : Engine),
      lookupTopic t e.messages = none → Post w t v e = e) ∧
    (∀ (w : World) (t : String) (v : Nat) (e : Engine)
        (hs : List (MsgKey × msgHandler)),
      lookupTopic t e.messages = some hs →
      Post w t v e =
        { e with
          messages := setTopic t (hs.filter (fun kh => w.mounted kh.2.src)) e.messages,
          events := e.events ++ (hs.filter (fun kh => w.mounted kh.2.src)).map
            (fun kh => ⟨kh.2.src, false, some (.msg kh.2.function v)⟩) }) :=
  ⟨Post_eq_of_lookup_none, Post_eq_of_lookup⟩

theorem post_contract_witness :
    Post wChain "x" 3 engine0 = engine0 ∧
    Post wChain "t" 4
        { engine0 with messages := [("t", [((1, 9), ⟨1, 9⟩)])] } =
      { engine0 with
        messages := [("t", [((1, 9), ⟨1, 9⟩)])],
        events := [⟨1, false, some (.msg 9 4)⟩] } := by
  constructor
  · exact post_contract.1 wChain "x" 3 engine0 rfl
  · have h := post_contract.2 wChain "t" 4
      { engine0 with messages := [("t", [((1, 9), ⟨1, 9⟩)])] } [((1, 9), ⟨1, 9⟩)] rfl
    simpa [engine0, setTopic, wChain] using h

/-! ### Claim C8 -/

/-- Claim C8: subscribing the same (subscriber, handler) composite identity
twice under the same topic is an idempotent upsert: the second `Handle`
call leaves the engine exactly as the first did, and the registry holds
exactly one entry for that identity under the topic. -/
theorem handle_idempotent_upsert :
    (∀ (t : String) (s : NodeId) (h : Nat) (e : Engine),
      Handle t s h (Handle t s h e) = Handle t s h e) ∧
    (∀ (t : String) (s : NodeId) (h : Nat) (e : Engine),
      countKey (s, h) ((lookupTopic t e.messages).getD []) ≤ 1 →
      countKey (s, h) ((lookupTopic t (Handle t s h e).messages).getD []) = 1) := by
  constructor
  · intro t s h e
    show ({ Handle t s h e with messages := _ } : Engine) = _
    simp only [Handle, lookupTopic_setTopic, Option.getD_some, mapPut_mapPut,
      setTopic_setTopic]
  · intro t s h e hcount
    simp only [Handle, lookupTopic_setTopic, Option.getD_some]
    exact countKey_mapPut (s, h) ⟨s, h⟩ _ hcount

theorem handle_idempotent_upsert_witness :
    Handle "t" 1 2 (Handle "t" 1 2 engine0) = Handle "t" 1 2 engine0 ∧
    countKey (1, 2) ((lookupTopic "t" (Handle "t" 1 2 engine0).messages).getD []) = 1 :=
  ⟨handle_idempotent_upsert.1 "t" 1 2 engine0,
   handle_idempotent_upsert.2 "t" 1 2 engine0 (by simp [engine0, lookupTopic, countKey])⟩

/-! ### Claim C7 -/

lemma emitLoop_spec (w : World) :
    ∀ (fuel : Nat) (m : Option NodeId) (cnt : Nat) (e : Engine) (cs : List NodeId),
      chainCompos w fuel m = some cs →
      emitLoop w fuel m cnt e = some
        { e with events := e.events ++
            (((if cnt = 0 then cs.drop 1 else cs).filter (fun c => w.mounted c)).map
              (fun c => (⟨c, false, none⟩ : Event))) } := by
  intro fuel
  induction fuel with
  | zero =>
    intro m cnt e cs hc
    cases m with
    | none =>
      rw [chainCompos] at hc
      cases hc
      simp [emitLoop]
    | some n => rw [chainCompos] at hc; cases hc
  | succ fuel ih =>
    intro m cnt e cs hc
    cases m with
    | none =>
      rw [chainCompos] at hc
      cases hc
      simp [emitLoop]
    | some n =>
      rw [chainCompos] at hc
      cases hcc : chainCompos w fuel (w.parent n) with
      | none => rw [hcc] at hc; cases hc
      | some cs' =>
        rw [hcc] at hc
        have hc : (if w.isComposer n then n :: cs' else cs') = cs := by
          injection hc
        by_cases hcm : w.isComposer n = true
        · rw [if_pos hcm] at hc
          subst hc
          rw [emitLoop, if_pos hcm]
          cases cnt with
          | zero =>
            rw [if_neg (by omega)]
            rw [ih (w.parent n) (0 + 1) e cs' hcc]
            simp
          | succ k =>
            rw [if_pos (by omega)]
            by_cases hm : w.mounted n = true
            · rw [Dispatch_some_mounted w n none e hm]
              rw [ih (w.parent n) (k + 1 + 1) _ cs' hcc]
              simp [List.filter_cons, hm, List.append_assoc]
            · have hm' : w.mounted n = false := by simpa using hm
              rw [Dispatch_some_unmounted w n none e hm']
              rw [ih (w.parent n) (k + 1 + 1) e cs' hcc]
              simp [List.filter_cons, hm']
        · rw [if_neg hcm] at hc
          subst hc
          rw [emitLoop, if_neg hcm]
          rw [ih (w.parent n) cnt e cs' hcc]

/-- Claim C7: `Emit(source, fn)` is a no-op when the source is unmounted
(the callback does not run and the engine is unchanged); otherwise it runs
`fn` synchronously — recorded directly in the returned trace, not through
the queue — and then walks the parent chain upward from the source: the
first enclosing composer found (the head of `chainCompos`) is not
rescheduled, while every (mounted) composer above it gets its own
non-deferable nil-function update event dispatched. -/
theorem emit_contract :
    (∀ (w : World) (fuel : Nat) (src : NodeId) (fn : Option Nat) (e : Engine),
      w.mounted src = false → Emit w fuel src fn e = some (e, [])) ∧
    (∀ (w : World) (fuel : Nat) (src : NodeId) (fn : Option Nat) (e : Engine)
        (cs : List NodeId),
      w.mounted src = true → chainCompos w fuel (some src) = some cs →
      Emit w fuel src fn e = some
        ({ e with events := e.events ++ (((cs.drop 1).filter (fun c => w.mounted c)).map
              (fun c => (⟨c, false, none⟩ : Event))) },
         match fn with | some f => [TraceEntry.emitRun f] | none => [])) := by
  constructor
  · intro w fuel src fn e h
    simp [Emit, h]
  · intro w fuel src fn e cs h hc
    unfold Emit
    rw [if_pos h, emitLoop_spec w fuel (some src) 0 e cs hc]
    simp

theorem emit_contract_witness :
    Emit wChain 5 2 (some 7) engine0 = some
      ({ engine0 with events := [⟨1, false, none⟩, ⟨0, false, none⟩] },
       [TraceEntry.emitRun 7]) := by
  have h := emit_contract.2 wChain 5 2 (some 7) engine0 [2, 1, 0] rfl rfl
  simpa [engine0, wChain] using h

/-! ### Helper lemmas: the parent-chain walk and the priority measure -/

lemma hopsToRoot_mono (w : World) :
    ∀ (f f' : Nat) (n : NodeId) (k : Nat),
      hopsToRoot w f n = some k → f ≤ f' → hopsToRoot w f' n = some k := by
  intro f
  induction f with
  | zero => intro f' n k h; rw [hopsToRoot] at h; cases h
  | succ f ih =>
    intro f' n k h hle
    obtain ⟨f'', rfl⟩ : ∃ f'', f' = f'' + 1 := ⟨f' - 1, by omega⟩
    cases hp : w.parent n with
    | none =>
      simp [hopsToRoot, hp] at h ⊢
      omega
    | some p =>
      cases hk : hopsToRoot w f p with
      | none => simp [hopsToRoot, hp, hk] at h
      | some k' =>
        simp [hopsToRoot, hp, hk] at h
        simp [hopsToRoot, hp, ih f'' p k' hk (by omega)]
        omega

lemma scheduleWalk_some_of_hops (w : World) :
    ∀ (f : Nat) (n : NodeId) (k : Nat), hopsToRoot w f n = some k →
      ∀ (upd : List NodeId) (c : NodeId) (depth : Nat),
        scheduleWalk w upd f n (some c) depth = .found c (depth + k) := by
  intro f
  induction f with
  | zero => intro n k h; rw [hopsToRoot] at h; cases h
  | succ f ih =>
    intro n k h upd c depth
    cases hp : w.parent n with
    | none =>
      simp [hopsToRoot, hp] at h
      simp [scheduleWalk, hp]
      omega
    | some p =>
      cases hk : hopsToRoot w f p with
      | none => simp [hopsToRoot, hp, hk] at h
      | some k' =>
        simp [hopsToRoot, hp, hk] at h
        have hw := ih p k' hk upd c (depth + 1)
        simp [scheduleWalk, hp, hw]
        omega

lemma scheduleWalk_some_found (w : World) :
    ∀ (f : Nat) (n : NodeId) (upd : List NodeId) (c c' : NodeId) (depth d : Nat),
      scheduleWalk w upd f n (some c) depth = .found c' d →
      c' = c ∧ ∃ k, hopsToRoot w f n = some k ∧ d = depth + k := by
  intro f
  induction f with
  | zero => intro n upd c c' depth d h; rw [scheduleWalk] at h; cases h
  | succ f ih =>
    intro n upd c c' depth d h
    cases hp : w.parent n with
    | none =>
      simp [scheduleWalk, hp] at h
      obtain ⟨h1, h2⟩ := h
      exact ⟨h1.symm, 0, by simp [hopsToRoot, hp], by omega⟩
    | some p =>
      simp only [scheduleWalk] at h
      rw [hp] at h
      obtain ⟨hc, k', hk', hd⟩ := ih p upd c c' (depth + 1) d h
      exact ⟨hc, k' + 1, by simp [hopsToRoot, hp, hk'], by omega⟩

lemma scheduleWalk_found_hops (w : World) :
    ∀ (f : Nat) (n : NodeId) (upd : List NodeId) (c : NodeId) (d : Nat),
      scheduleWalk w upd f n none 0 = .found c d → hopsToRoot w f c = some d := by
  intro f
  induction f with
  | zero => intro n upd c d h; rw [scheduleWalk] at h; cases h
  | succ f ih =>
    intro n upd c d h
    by_cases hcm : w.isComposer n = true
    · by_cases hu : n ∈ upd
      · simp [scheduleWalk, hcm, hu] at h
      · cases hp : w.parent n with
        | none =>
          simp [scheduleWalk, hcm, hu, hp] at h
          obtain ⟨h1, h2⟩ := h
          subst h1
          simp [hopsToRoot, hp]
          omega
        | some p =>
          simp [scheduleWalk, hcm, hu, hp] at h
          obtain ⟨hc, k, hk, hd⟩ := scheduleWalk_some_found w f p upd n c 1 d h
          subst hc
          simp [hopsToRoot, hp, hk]
          omega
    · cases hp : w.parent n with
      | none => simp [scheduleWalk, hcm, hp] at h
      | some p =>
        simp [scheduleWalk, hcm, hp] at h
        exact hopsToRoot_mono w f (f + 1) c d (ih p upd c d h) (by omega)

lemma scheduleWalk_none_upd (w : World) :
    ∀ (f : Nat) (n : NodeId) (c : NodeId) (d : Nat),
      scheduleWalk w [] f n none 0 = .found c d →
      ∀ upd : List NodeId,
        scheduleWalk w upd f n none 0 = if c ∈ upd then .already else .found c d := by
  intro f
  induction f with
  | zero => intro n c d h; rw [scheduleWalk] at h; cases h
  | succ f ih =>
    intro n c d h upd
    by_cases hcm : w.isComposer n = true
    · cases hp : w.parent n with
      | none =>
        simp [scheduleWalk, hcm, hp] at h
        obtain ⟨h1, h2⟩ := h
        subst h1
        subst h2
        by_cases hu : n ∈ upd
        · simp [scheduleWalk, hcm, hu]
        · simp [scheduleWalk, hcm, hu, hp]
      | some p =>
        simp [scheduleWalk, hcm, hp] at h
        obtain ⟨hc, k, hk, hd⟩ := scheduleWalk_some_found w f p [] n c 1 d h
        subst hc
        by_cases hu : c ∈ upd
        · simp [scheduleWalk, hcm, hu]
        · have hw := scheduleWalk_some_of_hops w f p k hk upd c 1
          simp [scheduleWalk, hcm, hu, hp, hw]
          omega
    · cases hp : w.parent n with
      | none => simp [scheduleWalk, hcm, hp] at h
      | some p =>
        simp [scheduleWalk, hcm, hp] at h
        have hrec := ih p c d h upd
        simp [scheduleWalk, hcm, hp, hrec]

/-! ### Helper lemmas: sorting the batch -/

lemma mem_insertDesc (d x : UpdateDescriptor) (l : List UpdateDescriptor) :
    x ∈ insertDesc d l ↔ x = d ∨ x ∈ l := by
  induction l with
  | nil => simp [insertDesc]
  | cons y ys ih =>
    by_cases hlt : d.priority < y.priority
    · rw [insertDesc, if_pos hlt]
      simp
    · rw [insertDesc, if_neg hlt]
      simp only [List.mem_cons, ih]
      tauto

lemma pairwise_insertDesc (d : UpdateDescriptor) (l : List UpdateDescriptor)
    (h : l.Pairwise (fun a b => a.priority ≤ b.priority)) :
    (insertDesc d l).Pairwise (fun a b => a.priority ≤ b.priority) := by
  induction l with
  | nil => simp [insertDesc]
  | cons y ys ih =>
    rw [List.pairwise_cons] at h
    obtain ⟨hy, hys⟩ := h
    by_cases hlt : d.priority < y.priority
    · rw [insertDesc, if_pos hlt, List.pairwise_cons]
      constructor
      · intro z hz
        rcases List.mem_cons.mp hz with rfl | hz
        · omega
        · have := hy z hz; omega
      · rw [List.pairwise_cons]; exact ⟨hy, hys⟩
    · rw [insertDesc, if_neg hlt, List.pairwise_cons]
      constructor
      · intro z hz
        rcases (mem_insertDesc d z ys).mp hz with rfl | hz
        · omega
        · exact hy z hz
      · exact ih hys

lemma sortUpdateDescriptors_pairwise (l : List UpdateDescriptor) :
    (sortUpdateDescriptors l).Pairwise (fun a b => a.priority ≤ b.priority) := by
  induction l with
  | nil => rw [sortUpdateDescriptors]; exact List.Pairwise.nil
  | cons x xs ih => rw [sortUpdateDescriptors]; exact pairwise_insertDesc x _ ih

/-! ### Claim C2 -/

/-- Claim C2: `scheduleComponentUpdate` appends, for a newly scheduled
composer `c` found by the walk, a batch descriptor whose priority is
(number of parent-chain hops from `c` to the root) + 1; the sorted batch
processed by the flush is ascending in priority; and in the concrete
scenario of composers A (root, node 0), B (child, node 1), C (grandchild,
node 2) scheduled in the order C, A, B, the flush re-renders A, then B,
then C. -/
theorem schedule_priority_flush_order :
    (∀ (w : World) (fuel : Nat) (n : NodeId) (e : Engine) (c : NodeId) (d : Nat),
      w.mounted n = true →
      scheduleWalk w e.updates fuel n none 0 = .found c d →
      scheduleComponentUpdate w fuel n e =
        some { e with updates := setInsert c e.updates,
                      updateQueue := e.updateQueue ++ [⟨c, d + 1⟩] } ∧
      hopsToRoot w fuel c = some d) ∧
    (∀ l : List UpdateDescriptor,
      (sortUpdateDescriptors l).Pairwise (fun a b => a.priority ≤ b.priority)) ∧
    (∃ e1, scheduleList wChain 10 [2, 0, 1] engine0 = some e1 ∧
      ∃ e2, updateComponents wChain 10 e1 = some (.ok (e2, [0, 1, 2]))) := by
  refine ⟨?_, sortUpdateDescriptors_pairwise, ?_⟩
  · intro w fuel n e c d hm hw
    constructor
    · rw [scheduleComponentUpdate, if_pos hm, hw]
    · exact scheduleWalk_found_hops w fuel n e.updates c d hw
  · exact ⟨⟨[], [1, 0, 2], [⟨2, 3⟩, ⟨0, 1⟩, ⟨1, 2⟩], [], [], 0, false⟩, rfl,
      ⟨[], [], [], [], [], 0, false⟩, rfl⟩

theorem schedule_priority_flush_order_witness :
    scheduleComponentUpdate wChain 5 2 engine0 =
      some { engine0 with updates := [2], updateQueue := [⟨2, 3⟩] } ∧
    hopsToRoot wChain 5 2 = some 2 := by
  have h := schedule_priority_flush_order.1 wChain 5 2 engine0 2 2 rfl rfl
  simpa [engine0, setInsert] using h

/-! ### Claim C3 -/

/-- World in which the root composer's re-render triggers a nested
scheduling call on its child composer, node 1. -/
def wNested : World :=
  { wChain with render := fun n => match n with | 0 => .ok [1] | _ => .ok [] }

/-- Engine state with the root composer pending and batched. -/
def eNested : Engine := ⟨[], [0], [⟨0, 1⟩], [], [], 0, true⟩

/-- The state left behind by flushing `eNested` under `wNested`: composer 1
is pending but the batch list is empty. -/
def eStranded : Engine := ⟨[], [1], [], [], [], 0, true⟩

/-- Counterexample to claim C3: flushing `eNested` under `wNested`
re-renders the root, whose nested scheduling call re-adds composer 1 to the
pending set and the batch; the flush then clears the whole batch list, so
after the pass the mounted composer 1 sits in the pending set with no batch
entry, and the next `updateComponents` invocation re-renders nothing — the
composer is stranded, contradicting the claimed invariant. -/
theorem pending_without_batch_entry_cex :
    updateComponents wNested 10 eNested = some (.ok (eStranded, [0])) ∧
    wNested.mounted 1 = true ∧
    eStranded.updates = [1] ∧
    eStranded.updateQueue = [] ∧
    updateComponents wNested 10 eStranded = some (.ok (eStranded, [])) :=
  ⟨rfl, rfl, rfl, rfl, rfl⟩

/-- Claim C3 (amended): `scheduleComponentUpdate` preserves the invariant
that every composer in the pending set has a batch entry, but
`updateComponents` does not: a flush over a non-empty pending set always
clears the entire batch list (including entries appended during the pass
by nested scheduling calls), so composers remaining in — or re-added to —
the pending set during the pass are left without a batch entry and are not
re-rendered by subsequent flushes. -/
theorem schedule_covers_flush_clears :
    (∀ (w : World) (fuel : Nat) (n : NodeId) (e e' : Engine),
      (∀ c ∈ e.updates, ∃ ud ∈ e.updateQueue, ud.compo = c) →
      scheduleComponentUpdate w fuel n e = some e' →
      ∀ c ∈ e'.updates, ∃ ud ∈ e'.updateQueue, ud.compo = c) ∧
    (∀ (w : World) (fuel : Nat) (e e' : Engine) (tr : List NodeId),
      e.updates ≠ [] →
      updateComponents w fuel e = some (.ok (e', tr)) →
      e'.updateQueue = []) := by
  constructor
  · intro w fuel n e e' hinv hs c hc
    rw [scheduleComponentUpdate] at hs
    by_cases hm : w.mounted n = true
    · rw [if_pos hm] at hs
      cases hw : scheduleWalk w e.updates fuel n none 0 with
      | fuelOut => rw [hw] at hs; cases hs
      | already =>
        rw [hw] at hs; injection hs with hs; subst hs; exact hinv c hc
      | noCompo =>
        rw [hw] at hs; injection hs with hs; subst hs; exact hinv c hc
      | found c0 d =>
        rw [hw] at hs
        injection hs with hs
        subst hs
        have hc' : c ∈ setInsert c0 e.updates := hc
        show ∃ ud ∈ e.updateQueue ++ [⟨c0, d + 1⟩], ud.compo = c
        rw [setInsert] at hc'
        by_cases hce : c0 ∈ e.updates
        · rw [if_pos hce] at hc'
          obtain ⟨ud, hud, hudc⟩ := hinv c hc'
          exact ⟨ud, List.mem_append_left _ hud, hudc⟩
        · rw [if_neg hce] at hc'
          rcases List.mem_cons.mp hc' with rfl | hc''
          · exact ⟨⟨c, d + 1⟩, List.mem_append_right _ (by simp), rfl⟩
          · obtain ⟨ud, hud, hudc⟩ := hinv c hc''
            exact ⟨ud, List.mem_append_left _ hud, hudc⟩
    · rw [if_neg hm] at hs
      injection hs with hs; subst hs; exact hinv c hc
  · intro w fuel e e' tr hne hu
    unfold updateComponents at hu
    rw [if_neg hne] at hu
    cases hp : updatePass w fuel (sortUpdateDescriptors e.updateQueue)
        { e with updateQueue := sortUpdateDescriptors e.updateQueue } with
    | none => rw [hp] at hu; cases hu
    | some r =>
      rw [hp] at hu
      cases r with
      | error p => simp at hu
      | ok pr =>
        obtain ⟨e'', tr'⟩ := pr
        simp only [Option.some.injEq, Except.ok.injEq, Prod.mk.injEq] at hu
        obtain ⟨hu1, hu2⟩ := hu
        rw [← hu1]

theorem schedule_covers_flush_clears_witness :
    ∃ ud ∈ ({ engine0 with updates := [2], updateQueue := [⟨2, 3⟩] } : Engine).updateQueue,
      ud.compo = 2 :=
  schedule_covers_flush_clears.1 wChain 5 2 engine0
    { engine0 with updates := [2], updateQueue := [⟨2, 3⟩] }
    (by simp [engine0]) rfl 2 (by simp)

/-! ### Claim C9 -/

lemma updatePass_error (w : World) (fuel : Nat) :
    ∀ (uds : List UpdateDescriptor) (e : Engine) (p : EnginePanic),
      updatePass w fuel uds e = some (.error p) → ∃ err, p = .raw err := by
  intro uds
  induction uds with
  | nil => intro e p h; rw [updatePass] at h; simp at h
  | cons ud rest ih =>
    intro e p h
    by_cases hm : w.mounted ud.compo = true
    · by_cases hu : ud.compo ∈ e.updates
      · cases hr : w.render ud.compo with
        | error err =>
          simp [updatePass, hm, hu, hr] at h
          exact ⟨err, h.symm⟩
        | ok scheds =>
          cases hsl : scheduleList w fuel scheds e with
          | none => simp [updatePass, hm, hu, hr, hsl] at h
          | some e1 =>
            cases hp2 : updatePass w fuel rest (componentUpdated ud.compo e1) with
            | none => simp [updatePass, hm, hu, hr, hsl, hp2] at h
            | some r =>
              cases r with
              | error p2 =>
                simp [updatePass, hm, hu, hr, hsl, hp2] at h
                subst h
                exact ih _ _ hp2
              | ok pr =>
                obtain ⟨e2, tr⟩ := pr
                simp [updatePass, hm, hu, hr, hsl, hp2] at h
      · simp [updatePass, hm, hu] at h
        exact ih e p h
    · simp [updatePass, hm] at h
      exact ih e p h

/-- World in which every re-render of the root fails with error 7. -/
def wFail : World := { wChain with render := fun _ => .error 7 }

/-- Engine state with the root composer pending and batched, ready to
flush. -/
def eFail : Engine := ⟨[], [0], [⟨0, 1⟩], [], [], 0, true⟩

/-- Counterexample to claim C9: a failing `updateRoot` inside the flush is
a structural-fatal failure, yet `updateComponents` raises the bare error
value, which carries none of the claimed diagnostic context. -/
theorem updateRoot_panic_untagged_cex :
    updateComponents wFail 5 eFail = some (.error (.raw 7)) ∧
    (EnginePanic.raw 7).hasDiagnostics = false :=
  ⟨rfl, rfl⟩

/-- Claim C9 (amended): every non-recoverable failure inside `Mount`
terminates via a panic that carries the diagnostic context — queue depth,
queue capacity, pending-update count and batch-list length, attached at
the point of failure — but a re-render (`updateRoot`) failure inside
`updateComponents` is propagated as a panic of the raw error value,
without diagnostic context. -/
theorem structural_failure_diagnostics :
    (∀ (w : World) (e : Engine) (p : EnginePanic),
      mountAction w e = .error p → ∃ err, p = mountTaggedPanic e err) ∧
    (∀ (w : World) (fuel : Nat) (e : Engine) (p : EnginePanic),
      updateComponents w fuel e = some (.error p) → ∃ err, p = .raw err) := by
  constructor
  · intro w e p h
    by_cases hio : e.isMountedOnce = true
    · cases hur : w.updateResult with
      | none => simp [mountAction, hio, hur] at h
      | some err =>
        by_cases hir : w.isErrReplace err = true
        · cases hrc : w.replaceChildResult with
          | none => simp [mountAction, hio, hur, hir, hrc] at h
          | some err2 =>
            simp [mountAction, hio, hur, hir, hrc] at h
            exact ⟨err2, h.symm⟩
        · have hir' : w.isErrReplace err = false := by simpa using hir
          simp [mountAction, hio, hur, hir'] at h
          exact ⟨err, h.symm⟩
    · have hio' : e.isMountedOnce = false := by simpa using hio
      cases hrc : w.replaceChildResult with
      | none => simp [mountAction, hio', hrc] at h
      | some err =>
        simp [mountAction, hio', hrc] at h
        exact ⟨err, h.symm⟩
  · intro w fuel e p h
    unfold updateComponents at h
    by_cases hne : e.updates = []
    · rw [if_pos hne] at h; simp at h
    · rw [if_neg hne] at h
      cases hp : updatePass w fuel (sortUpdateDescriptors e.updateQueue)
          { e with updateQueue := sortUpdateDescriptors e.updateQueue } with
      | none => rw [hp] at h; cases h
      | some r =>
        rw [hp] at h
        cases r with
        | error p2 =>
          simp only [Option.some.injEq, Except.error.injEq] at h
          subst h
          exact updatePass_error w fuel _ _ p2 hp
        | ok pr => obtain ⟨e2, tr⟩ := pr; simp at h

/-- World whose `replaceChildAt` fails with error 3. -/
def wMountFail : World := { wChain with replaceChildResult := some 3 }

theorem structural_failure_diagnostics_witness :
    ∃ err, mountTaggedPanic engine0 3 = mountTaggedPanic engine0 err :=
  structural_failure_diagnostics.1 wMountFail engine0 (mountTaggedPanic engine0 3) rfl

/-! ### Claim C1 -/

lemma schedule_already (w : World) (fuel : Nat) (n compo : NodeId) (d : Nat) (e : Engine)
    (hm : w.mounted n = true)
    (hnear : scheduleWalk w [] fuel n none 0 = .found compo d)
    (hin : compo ∈ e.updates) :
    scheduleComponentUpdate w fuel n e = some e := by
  rw [scheduleComponentUpdate, if_pos hm,
    scheduleWalk_none_upd w fuel n compo d hnear e.updates, if_pos hin]

lemma scheduleList_noop (w : World) (fuel : Nat) (compo : NodeId) :
    ∀ (ns : List NodeId) (e : Engine),
      (∀ n ∈ ns, w.mounted n = true ∧
        ∃ d, scheduleWalk w [] fuel n none 0 = .found compo d) →
      compo ∈ e.updates →
      scheduleList w fuel ns e = some e := by
  intro ns
  induction ns with
  | nil => intro e _ _; rfl
  | cons n rest ih =>
    intro e hns hin
    obtain ⟨hm, d, hnear⟩ := hns n (by simp)
    rw [scheduleList, schedule_already w fuel n compo d e hm hnear hin]
    exact ih e (fun m hm' => hns m (by simp [hm'])) hin

/-- Claim C1: scheduling the same composer N ≥ 1 times between two flushes
— through any nodes whose nearest enclosing composer is that composer —
leaves the composer exactly once in the pending set and exactly once in
the batch, and the next flush re-renders it exactly once (the flush trace
is `[compo]`). -/
theorem schedule_dedup_single_render (w : World) (fuel : Nat) (ns : List NodeId)
    (compo : NodeId) (e0 e1 : Engine)
    (hne : ns ≠ [])
    (hns : ∀ n ∈ ns, w.mounted n = true ∧
      ∃ d, scheduleWalk w [] fuel n none 0 = .found compo d)
    (hcm : w.mounted compo = true)
    (hrender : ∀ c, w.render c = .ok [])
    (hu0 : e0.updates = [])
    (hq0 : e0.updateQueue = [])
    (hs : scheduleList w fuel ns e0 = some e1) :
    (∃ d, e1.updates = [compo] ∧ e1.updateQueue = [⟨compo, d + 1⟩]) ∧
    ∃ e2, updateComponents w fuel e1 = some (.ok (e2, [compo])) ∧
      e2.updates = [] ∧ e2.updateQueue = [] := by
  obtain ⟨n0, rest, rfl⟩ : ∃ n0 rest, ns = n0 :: rest := by
    cases ns with
    | nil => exact absurd rfl hne
    | cons a b => exact ⟨a, b, rfl⟩
  obtain ⟨hm0, d0, hnear0⟩ := hns n0 (by simp)
  have hstep : scheduleComponentUpdate w fuel n0 e0 =
      some { e0 with updates := [compo], updateQueue := [⟨compo, d0 + 1⟩] } := by
    rw [scheduleComponentUpdate, if_pos hm0, hu0, hnear0]
    simp [setInsert, hq0]
  rw [scheduleList, hstep] at hs
  have hrest : scheduleList w fuel rest
      { e0 with updates := [compo], updateQueue := [⟨compo, d0 + 1⟩] } =
      some { e0 with updates := [compo], updateQueue := [⟨compo, d0 + 1⟩] } :=
    scheduleList_noop w fuel compo rest _
      (fun m hm' => hns m (by simp [hm'])) (by simp)
  have hs' : scheduleList w fuel rest
      { e0 with updates := [compo], updateQueue := [⟨compo, d0 + 1⟩] } = some e1 := hs
  rw [hrest] at hs'
  injection hs' with hs'
  subst hs'
  refine ⟨⟨d0, rfl, rfl⟩, { e0 with updates := [], updateQueue := [] }, ?_, rfl, rfl⟩
  unfold updateComponents
  rw [if_neg (by simp)]
  simp [sortUpdateDescriptors, insertDesc, updatePass, hcm, hrender compo,
    scheduleList, componentUpdated]

theorem schedule_dedup_single_render_witness :
    (∃ d, (⟨[], [0], [⟨0, 1⟩], [], [], 0, false⟩ : Engine).updates = [0] ∧
      (⟨[], [0], [⟨0, 1⟩], [], [], 0, false⟩ : Engine).updateQueue = [⟨0, d + 1⟩]) ∧
    ∃ e2, updateComponents wChain 5 ⟨[], [0], [⟨0, 1⟩], [], [], 0, false⟩ =
        some (.ok (e2, [0])) ∧
      e2.updates = [] ∧ e2.updateQueue = [] :=
  schedule_dedup_single_render wChain 5 [0, 0, 0] 0 engine0
    ⟨[], [0], [⟨0, 1⟩], [], [], 0, false⟩
    (by simp)
    (by intro n hn; simp at hn; subst hn; exact ⟨rfl, 0, rfl⟩)
    rfl (fun c => rfl) rfl rfl rfl

/-! ### Claim C4 -/

lemma scheduleComponentUpdate_rest (w : World) (fuel : Nat) (n : NodeId) (e e' : Engine)
    (h : scheduleComponentUpdate w fuel n e = some e') :
    e'.events = e.events ∧ e'.defers = e.defers ∧ e'.messages = e.messages := by
  by_cases hm : w.mounted n = true
  · cases hw : scheduleWalk w e.updates fuel n none 0 with
    | fuelOut => simp [scheduleComponentUpdate, hm, hw] at h
    | already =>
      simp [scheduleComponentUpdate, hm, hw] at h
      subst h; exact ⟨rfl, rfl, rfl⟩
    | noCompo =>
      simp [scheduleComponentUpdate, hm, hw] at h
      subst h; exact ⟨rfl, rfl, rfl⟩
    | found c d =>
      simp [scheduleComponentUpdate, hm, hw] at h
      subst h; exact ⟨rfl, rfl, rfl⟩
  · simp [scheduleComponentUpdate, hm] at h
    subst h; exact ⟨rfl, rfl, rfl⟩

lemma scheduleList_rest (w : World) (fuel : Nat) :
    ∀ (ns : List NodeId) (e e' : Engine),
      scheduleList w fuel ns e = some e' →
      e'.events = e.events ∧ e'.defers = e.defers ∧ e'.messages = e.messages := by
  intro ns
  induction ns with
  | nil =>
    intro e e' h
    injection h with h
    subst h; exact ⟨rfl, rfl, rfl⟩
  | cons n rest ih =>
    intro e e' h
    rw [scheduleList] at h
    cases hs : scheduleComponentUpdate w fuel n e with
    | none => rw [hs] at h; cases h
    | some e1 =>
      rw [hs] at h
      obtain ⟨h1, h2, h3⟩ := scheduleComponentUpdate_rest w fuel n e e1 hs
      obtain ⟨g1, g2, g3⟩ := ih e1 e' h
      exact ⟨g1.trans h1, g2.trans h2, g3.trans h3⟩

lemma updatePass_rest (w : World) (fuel : Nat) :
    ∀ (uds : List UpdateDescriptor) (e e' : Engine) (tr : List NodeId),
      updatePass w fuel uds e = some (.ok (e', tr)) →
      e'.events = e.events ∧ e'.defers = e.defers ∧ e'.messages = e.messages := by
  intro uds
  induction uds with
  | nil =>
    intro e e' tr h
    simp [updatePass] at h
    obtain ⟨h1, h2⟩ := h
    subst h1; exact ⟨rfl, rfl, rfl⟩
  | cons ud rest ih =>
    intro e e' tr h
    by_cases hm : w.mounted ud.compo = true
    · by_cases hu : ud.compo ∈ e.updates
      · cases hr : w.render ud.compo with
        | error err => simp [updatePass, hm, hu, hr] at h
        | ok scheds =>
          cases hsl : scheduleList w fuel scheds e with
          | none => simp [updatePass, hm, hu, hr, hsl] at h
          | some e1 =>
            cases hp2 : updatePass w fuel rest (componentUpdated ud.compo e1) with
            | none => simp [updatePass, hm, hu, hr, hsl, hp2] at h
            | some r =>
              cases r with
              | error p2 => simp [updatePass, hm, hu, hr, hsl, hp2] at h
              | ok pr =>
                obtain ⟨e2, tr2⟩ := pr
                simp [updatePass, hm, hu, hr, hsl, hp2] at h
                obtain ⟨h1, h2⟩ := h
                subst h1
                obtain ⟨s1, s2, s3⟩ := scheduleList_rest w fuel scheds e e1 hsl
                obtain ⟨g1, g2, g3⟩ := ih (componentUpdated ud.compo e1) e2 tr2 hp2
                exact ⟨g1.trans s1, g2.trans s2, g3.trans s3⟩
      · simp [updatePass, hm, hu] at h
        exact ih e e' tr h
    · simp [updatePass, hm] at h
      exact ih e e' tr h

lemma updateComponents_rest (w : World) (fuel : Nat) (e e' : Engine) (tr : List NodeId)
    (h : updateComponents w fuel e = some (.ok (e', tr))) :
    e'.events = e.events ∧ e'.defers = e.defers ∧ e'.messages = e.messages := by
  unfold updateComponents at h
  by_cases hne : e.updates = []
  · rw [if_pos hne] at h
    simp at h
    obtain ⟨h1, h2⟩ := h
    subst h1; exact ⟨rfl, rfl, rfl⟩
  · rw [if_neg hne] at h
    cases hp : updatePass w fuel (sortUpdateDescriptors e.updateQueue)
        { e with updateQueue := sortUpdateDescriptors e.updateQueue } with
    | none => rw [hp] at h; cases h
    | some r =>
      rw [hp] at h
      cases r with
      | error p => simp at h
      | ok pr =>
        obtain ⟨e2, tr2⟩ := pr
        simp at h
        obtain ⟨h1, h2⟩ := h
        obtain ⟨g1, g2, g3⟩ := updatePass_rest w fuel _ _ e2 tr2 hp
        subst h1
        exact ⟨g1, g2, g3⟩

lemma execDefersLoop_spec (w : World) :
    ∀ l : List Event,
      execDefersLoop w l = (l.filter (fun ev => w.mounted ev.source)).map
        (fun ev => TraceEntry.exec ev.source ev.function) := by
  intro l
  induction l with
  | nil => rfl
  | cons ev rest ih =>
    by_cases hm : w.mounted ev.source = true
    · simp [execDefersLoop, hm, ih, List.filter_cons]
    · have hm' : w.mounted ev.source = false := by simpa using hm
      simp [execDefersLoop, hm', ih, List.filter_cons]

lemma consumeLoop_spec (w : World) (fuel : Nat) :
    ∀ (evs : List Event) (e e' : Engine) (tr : List TraceEntry),
      consumeLoop w fuel evs e = some (e', tr) →
      tr = (evs.filter (fun ev =>
          !ev.deferable && (w.mounted ev.source && ev.function.isSome))).map
          (fun ev => TraceEntry.exec ev.source ev.function) ∧
      e'.defers = e.defers ++ evs.filter (fun ev => ev.deferable) ∧
      e'.events = e.events ∧ e'.messages = e.messages := by
  intro evs
  induction evs with
  | nil =>
    intro e e' tr h
    simp [consumeLoop] at h
    obtain ⟨h1, h2⟩ := h
    subst h1; subst h2
    simp
  | cons ev rest ih =>
    intro e e' tr h
    by_cases hd : ev.deferable = true
    · simp only [consumeLoop, hd, if_true] at h
      obtain ⟨h1, h2, h3, h4⟩ := ih _ e' tr h
      refine ⟨?_, ?_, h3, h4⟩
      · rw [h1]
        simp [List.filter_cons, hd]
      · rw [h2]
        simp [List.filter_cons, hd, List.append_assoc]
    · have hd' : ev.deferable = false := by simpa using hd
      cases hs : scheduleComponentUpdate w fuel ev.source e with
      | none => simp [consumeLoop, hd', hs] at h
      | some e1 =>
        cases hc : consumeLoop w fuel rest e1 with
        | none => simp [consumeLoop, hd', hs, hc] at h
        | some pr =>
          obtain ⟨e2, tr2⟩ := pr
          simp [consumeLoop, hd', hs, hc] at h
          obtain ⟨h1, h2⟩ := h
          subst h1; subst h2
          obtain ⟨g1, g2, g3, g4⟩ := ih e1 e2 tr2 hc
          obtain ⟨s1, s2, s3⟩ := scheduleComponentUpdate_rest w fuel ev.source e e1 hs
          refine ⟨?_, ?_, g3.trans s1, g4.trans s3⟩
          · rw [g1]
            by_cases hmf : (w.mounted ev.source && ev.function.isSome) = true
            · simp [execEvent, hmf, List.filter_cons, hd']
            · have hmf' : (w.mounted ev.source && ev.function.isSome) = false := by
                simpa using hmf
              simp [execEvent, hmf', List.filter_cons, hd']
          · rw [g2, s2]
            simp [List.filter_cons, hd']

/-- Claim C4: a deferable event never executes before the update flush that
follows its enqueue: in `Consume`, the trace decomposes into the
non-deferable executions, then the flush's re-renders, then — after the
flush — the deferred buffer drained in FIFO order (previously buffered
events first, then the events parked during this drain, each executing iff
its source is mounted at drain time), and the deferred buffer is cleared
afterwards. -/
theorem consume_defers_after_flush (w : World) (fuel : Nat) (e e' : Engine)
    (tr : List TraceEntry)
    (h : Consume w fuel e = some (.ok (e', tr))) :
    ∃ renders : List NodeId,
      tr = (e.events.filter (fun ev =>
            !ev.deferable && (w.mounted ev.source && ev.function.isSome))).map
            (fun ev => TraceEntry.exec ev.source ev.function)
        ++ renders.map TraceEntry.render
        ++ ((e.defers ++ e.events.filter (fun ev => ev.deferable)).filter
              (fun ev => w.mounted ev.source)).map
            (fun ev => TraceEntry.exec ev.source ev.function) ∧
      e'.defers = [] := by
  unfold Consume at h
  cases hc : consumeLoop w fuel e.events { e with events := [] } with
  | none => rw [hc] at h; cases h
  | some pr =>
    obtain ⟨e1, tr1⟩ := pr
    simp only [hc] at h
    cases hu : updateComponents w fuel e1 with
    | none => simp only [hu] at h; cases h
    | some r =>
      simp only [hu] at h
      cases r with
      | error p => simp at h
      | ok pr2 =>
        obtain ⟨e2, renders⟩ := pr2
        simp [execDeferableEvents] at h
        obtain ⟨h1, h2⟩ := h
        obtain ⟨c1, c2, c3, c4⟩ := consumeLoop_spec w fuel e.events _ e1 tr1 hc
        obtain ⟨u1, u2, u3⟩ := updateComponents_rest w fuel e1 e2 renders hu
        have hdef : e2.defers = e.defers ++ e.events.filter (fun ev => ev.deferable) := by
          rw [u2]; exact c2
        refine ⟨renders, ?_, ?_⟩
        · rw [← h2, c1, hdef, execDefersLoop_spec]
          simp [List.append_assoc]
        · rw [← h1]

theorem consume_defers_after_flush_witness :
    ∃ renders : List NodeId,
      ([.exec 0 (some (.plain 1)), .render 0, .exec 0 (some (.plain 2))] : List TraceEntry) =
        (([⟨0, false, some (.plain 1)⟩, ⟨0, true, some (.plain 2)⟩] : List Event).filter
            (fun ev => !ev.deferable && (wChain.mounted ev.source && ev.function.isSome))).map
            (fun ev => TraceEntry.exec ev.source ev.function)
          ++ renders.map TraceEntry.render
          ++ ((([] : List Event) ++ ([⟨0, false, some (.plain 1)⟩,
                ⟨0, true, some (.plain 2)⟩] : List Event).filter
                  (fun ev => ev.deferable)).filter
                (fun ev => wChain.mounted ev.source)).map
              (fun ev => TraceEntry.exec ev.source ev.function) ∧
      (⟨[], [], [], [], [], 0, false⟩ : Engine).defers = [] :=
  consume_defers_after_flush wChain 5
    ⟨[⟨0, false, some (.plain 1)⟩, ⟨0, true, some (.plain 2)⟩], [], [], [], [], 0, false⟩
    ⟨[], [], [], [], [], 0, false⟩
    [.exec 0 (some (.plain 1)), .render 0, .exec 0 (some (.plain 2))]
    rfl

end GoAppEngine
